import Mathlib

/-!
Verification of the Soil toolchain (interpreter `soil.c`, assembler `assemble.c`)
against its natural-language specification.

The interpreter state and the single dispatch step (`run_single`) are embedded
shallowly from `src/soil.c`. Machine words are `Nat` values taken modulo `2 ^ 64`
where the C code wraps. Places where the C code performs an operation with
undefined behaviour (an access outside a buffer, an unsigned division by zero,
an array index out of range) are modelled by the distinguished outcome
`Outcome.ub`; a call to `dump_and_panic` is `Outcome.trap` with the format
string of the panic message.
-/

/-- `MEMORY_SIZE` from `soil.c`: the size of the linear memory arena. -/
def MEMORY_SIZE : Nat := 0x1000000

/-- The modulus of a 64-bit machine word. -/
def W64 : Nat := 2 ^ 64

/-- Reduce a natural number to a 64-bit word value. -/
def wrap (n : Nat) : Nat := n % W64

/-- The interpreter state of `soil.c`: the eight registers
(`sp, st, a, b, c, d, e, f` at slots 0..7), the instruction pointer, the
memory arena (a byte function meaningful on `[0, MEMORY_SIZE)`), and the
native call stack (head is the most recently pushed return address,
mirroring `call_stack` together with `call_stack_len`). -/
structure VM where
  reg : Fin 8 → Nat
  ip : Nat
  mem : Nat → Nat
  call_stack : List Nat

/-- The result of one dispatch step of `run_single`:
`ok` continues with the new state, `trap` is a `dump_and_panic` with the given
message, `exited` is process termination through the exit syscall,
`hostEffect` abstracts the file and stream syscalls (numbers 1 to 8) whose
effects are on the host and outside the pure model, and `ub` marks undefined
behaviour in the C source (buffer overrun, division by zero, register index
out of range, call stack overflow or underflow). -/
inductive Outcome where
  | ok (s : VM)
  | trap (msg : String)
  | exited (code : Nat)
  | hostEffect
  | ub

/-- The instruction pointer of an `ok` outcome. -/
def Outcome.okIp : Outcome → Option Nat
  | .ok s => some s.ip
  | _ => none

/-- A register of an `ok` outcome. -/
def Outcome.okReg : Outcome → Fin 8 → Option Nat
  | .ok s, i => some (s.reg i)
  | _, _ => none

/-- A memory byte of an `ok` outcome. -/
def Outcome.okMem : Outcome → Nat → Option Nat
  | .ok s, a => some (s.mem a)
  | _, _ => none

/-- The call stack of an `ok` outcome. -/
def Outcome.okStack : Outcome → Option (List Nat)
  | .ok s => some s.call_stack
  | _ => none

/-- Whether an outcome is a trap. -/
def Outcome.isTrap : Outcome → Bool
  | .trap _ => true
  | _ => false

/-- Read a byte of the bytecode buffer; `none` is a read past its end
(undefined behaviour in the C source, which never bounds-checks `ip`). -/
def byteAt (bc : List Nat) (i : Nat) : Option Nat := bc[i]?

/-- Combine eight bytes little-endian into a word, as the
`*(Word*)(byte_code + i)` pointer cast does on the little-endian host. -/
def leWord (b0 b1 b2 b3 b4 b5 b6 b7 : Nat) : Nat :=
  b0 + 256 * (b1 + 256 * (b2 + 256 * (b3 + 256 * (b4 + 256 *
    (b5 + 256 * (b6 + 256 * b7))))))

/-- Read a little-endian word from the bytecode buffer; `none` if any of the
eight bytes lies past the end. -/
def wordAt (bc : List Nat) (i : Nat) : Option Nat :=
  match bc[i]?, bc[i+1]?, bc[i+2]?, bc[i+3]?,
        bc[i+4]?, bc[i+5]?, bc[i+6]?, bc[i+7]? with
  | some b0, some b1, some b2, some b3, some b4, some b5, some b6, some b7 =>
      some (leWord b0 b1 b2 b3 b4 b5 b6 b7)
  | _, _, _, _, _, _, _, _ => none

/-- Read a little-endian word from the memory arena at address `a`.
`none` means the eight bytes are not contained in `[0, MEMORY_SIZE)`:
the C source would read outside the `malloc(MEMORY_SIZE)` arena. -/
def mem_read_word (m : Nat → Nat) (a : Nat) : Option Nat :=
  if a + 8 ≤ MEMORY_SIZE then
    some (leWord (m a) (m (a+1)) (m (a+2)) (m (a+3))
                 (m (a+4)) (m (a+5)) (m (a+6)) (m (a+7)))
  else none

/-- Write a word little-endian into the memory arena; `none` when the eight
bytes are not contained in `[0, MEMORY_SIZE)`. -/
def mem_write_word (m : Nat → Nat) (a w : Nat) : Option (Nat → Nat) :=
  if a + 8 ≤ MEMORY_SIZE then
    some (fun x => if a ≤ x ∧ x < a + 8 then w / 256 ^ (x - a) % 256 else m x)
  else none

/-- Write one byte into the memory arena (the C `mem[a] = v` truncates the
word `v` to a byte). -/
def mem_write_byte (m : Nat → Nat) (a v : Nat) : Nat → Nat :=
  fun x => if x = a then v % 256 else m x

/-- Overwrite the bytes `[dst, dst + src.length)` of the arena with `src`
(the copy loop of `syscall_arg`). -/
def copy_bytes (m : Nat → Nat) (dst : Nat) (src : List Nat) : Nat → Nat :=
  fun x => if dst ≤ x ∧ x < dst + src.length then src.getD (x - dst) 0 else m x

/-- Interpret a nibble as a register slot. A nibble `≥ 8` indexes past the
eight-element `reg` array in the C source, which is undefined behaviour. -/
def regIdx (n : Nat) : Option (Fin 8) :=
  if h : n < 8 then some ⟨n, h⟩ else none

/-- Fetch the register-pair operand byte at `ip + 1` and run `k` on the two
register slots (`REG1` = low nibble, `REG2` = high nibble), for instructions
whose C case uses both `REG1` and `REG2`. -/
def with_regs (bc : List Nat) (s : VM) (k : Fin 8 → Fin 8 → Outcome) : Outcome :=
  match byteAt bc (s.ip + 1) with
  | none => .ub
  | some ob =>
    match regIdx (ob % 16), regIdx (ob / 16) with
    | some r1, some r2 => k r1 r2
    | _, _ => .ub

/-- Fetch the operand byte at `ip + 1` and run `k` on the low-nibble register
slot, for instructions whose C case uses only `REG1`. -/
def with_reg1 (bc : List Nat) (s : VM) (k : Fin 8 → Outcome) : Outcome :=
  match byteAt bc (s.ip + 1) with
  | none => .ub
  | some ob =>
    match regIdx (ob % 16) with
    | some r1 => k r1
    | none => .ub

/-- The syscall dispatch of `soil.c` (`init_syscalls` and the handlers), for
the given host argument vector `args` (the whole `argv` that `main` stores in
`global_argv`, each argument a NUL-free byte string). Handler numbers 1 to 8
(print, log, create, open_reading, open_writing, read, write, close) act on
host files and streams and are abstracted as `hostEffect`; every slot not
assigned in `init_syscalls` holds `syscall_none`, which panics. The `ip += 2`
that `run_single` performs after the handler returns is included here for the
handlers that return. -/
def run_syscall (args : List (List Nat)) (s : VM) (n : Nat) : Outcome :=
  if n = 0 then .exited (s.reg 2)
  else if 1 ≤ n ∧ n ≤ 8 then .hostEffect
  else if n = 9 then
    .ok { s with reg := Function.update s.reg 2 args.length, ip := s.ip + 2 }
  else if n = 10 then
    -- the locals arg, len and written of syscall_arg are inlined:
    -- written = min (strlen arg) REGC
    if s.reg 2 ≥ args.length then .trap "arg index out of bounds"
    else if min (args.getD (s.reg 2) []).length (s.reg 4) = 0 ∨
            s.reg 3 + min (args.getD (s.reg 2) []).length (s.reg 4) ≤ MEMORY_SIZE then
      .ok { s with
            reg := Function.update s.reg 2 (min (args.getD (s.reg 2) []).length (s.reg 4)),
            mem := copy_bytes s.mem (s.reg 3)
              ((args.getD (s.reg 2) []).take (min (args.getD (s.reg 2) []).length (s.reg 4))),
            ip := s.ip + 2 }
    else .ub
  else .trap "invalid syscall number"

/-- The `switch (opcode)` statement of `run_single` in `soil.c`. -/
def exec_op (args : List (List Nat)) (bc : List Nat) (s : VM) (opcode : Nat) : Outcome :=
    if opcode = 0x00 then
      -- nop: the source calls dump_and_panic "halted"; the following
      -- ip += 1 in the C case is dead code
      .trap "halted"
    else if opcode = 0xe0 then .trap "panicked"
    else if opcode = 0xd0 then with_regs bc s fun r1 r2 =>  -- move
      .ok { s with reg := Function.update s.reg r1 (s.reg r2), ip := s.ip + 2 }
    else if opcode = 0xd1 then with_reg1 bc s fun r1 =>  -- movei
      match wordAt bc (s.ip + 2) with
      | none => .ub
      | some w => .ok { s with reg := Function.update s.reg r1 w, ip := s.ip + 10 }
    else if opcode = 0xd2 then with_reg1 bc s fun r1 =>  -- moveib
      match byteAt bc (s.ip + 2) with
      | none => .ub
      | some b => .ok { s with reg := Function.update s.reg r1 b, ip := s.ip + 3 }
    else if opcode = 0xd3 then with_regs bc s fun r1 r2 =>  -- load
      if s.reg r2 ≥ MEMORY_SIZE then .trap "invalid load"
      else match mem_read_word s.mem (s.reg r2) with
        | none => .ub
        | some w => .ok { s with reg := Function.update s.reg r1 w, ip := s.ip + 2 }
    else if opcode = 0xd4 then with_regs bc s fun r1 r2 =>  -- loadb
      if s.reg r2 ≥ MEMORY_SIZE then .trap "invalid loadb"
      else .ok { s with reg := Function.update s.reg r1 (s.mem (s.reg r2)), ip := s.ip + 2 }
    else if opcode = 0xd5 then with_regs bc s fun r1 r2 =>  -- store
      if s.reg r1 ≥ MEMORY_SIZE then .trap "invalid store"
      else match mem_write_word s.mem (s.reg r1) (s.reg r2) with
        | none => .ub
        | some m => .ok { s with mem := m, ip := s.ip + 2 }
    else if opcode = 0xd6 then with_regs bc s fun r1 r2 =>  -- storeb
      if s.reg r1 ≥ MEMORY_SIZE then .trap "invalid storeb"
      else .ok { s with mem := mem_write_byte s.mem (s.reg r1) (s.reg r2), ip := s.ip + 2 }
    else if opcode = 0xd7 then with_reg1 bc s fun r1 =>
      -- push: SP -= 8 first, then the store; the source has no bounds check
      let s1 := { s with reg := Function.update s.reg 0 (wrap (s.reg 0 + W64 - 8)) }
      match mem_write_word s1.mem (s1.reg 0) (s1.reg r1) with
      | none => .ub
      | some m => .ok { s1 with mem := m, ip := s.ip + 2 }
    else if opcode = 0xd8 then with_reg1 bc s fun r1 =>
      -- pop: the load, then SP += 8; the source has no bounds check
      match mem_read_word s.mem (s.reg 0) with
      | none => .ub
      | some w =>
        let s1 := { s with reg := Function.update s.reg r1 w }
        .ok { s1 with reg := Function.update s1.reg 0 (wrap (s1.reg 0 + 8)), ip := s.ip + 2 }
    else if opcode = 0xf0 then  -- jump
      match wordAt bc (s.ip + 1) with
      | none => .ub
      | some w => .ok { s with ip := w }
    else if opcode = 0xf1 then  -- cjump: the target word is read only when taken
      if s.reg 1 ≠ 0 then
        match wordAt bc (s.ip + 1) with
        | none => .ub
        | some w => .ok { s with ip := w }
      else .ok { s with ip := s.ip + 9 }
    else if opcode = 0xf2 then
      -- call: the source stores at call_stack[call_stack_len] without a
      -- capacity check; with 1024 entries that write is past the array
      if s.call_stack.length ≥ 1024 then .ub
      else match wordAt bc (s.ip + 1) with
        | none => .ub
        | some w => .ok { s with call_stack := wrap (s.ip + 9) :: s.call_stack, ip := w }
    else if opcode = 0xf3 then
      -- ret: the source decrements the unsigned call_stack_len without an
      -- emptiness check; on an empty stack the counter wraps and the read
      -- of call_stack[2^64 - 1] is past the array
      match s.call_stack with
      | [] => .ub
      | t :: rest => .ok { s with ip := t, call_stack := rest }
    else if opcode = 0xf4 then  -- syscall
      match byteAt bc (s.ip + 1) with
      | none => .ub
      | some n => run_syscall args s n
    else if opcode = 0xc0 then with_regs bc s fun r1 r2 =>  -- cmp
      .ok { s with
            reg := Function.update s.reg 1 (wrap (s.reg r1 + W64 - wrap (s.reg r2))),
            ip := s.ip + 2 }
    else if opcode = 0xc1 then  -- isequal
      .ok { s with
            reg := Function.update s.reg 1 (if s.reg 1 = 0 then 1 else 0),
            ip := s.ip + 1 }
    else if opcode = 0xc2 then  -- isless: signed test of st
      .ok { s with
            reg := Function.update s.reg 1 (if 2 ^ 63 ≤ s.reg 1 then 1 else 0),
            ip := s.ip + 1 }
    else if opcode = 0xc3 then  -- isgreater
      .ok { s with
            reg := Function.update s.reg 1 (if 0 < s.reg 1 ∧ s.reg 1 < 2 ^ 63 then 1 else 0),
            ip := s.ip + 1 }
    else if opcode = 0xc4 then  -- islessequal
      .ok { s with
            reg := Function.update s.reg 1 (if s.reg 1 = 0 ∨ 2 ^ 63 ≤ s.reg 1 then 1 else 0),
            ip := s.ip + 1 }
    else if opcode = 0xc5 then  -- isgreaterequal
      .ok { s with
            reg := Function.update s.reg 1 (if s.reg 1 < 2 ^ 63 then 1 else 0),
            ip := s.ip + 1 }
    else if opcode = 0xa0 then with_regs bc s fun r1 r2 =>  -- add
      .ok { s with
            reg := Function.update s.reg r1 (wrap (s.reg r1 + s.reg r2)),
            ip := s.ip + 2 }
    else if opcode = 0xa1 then with_regs bc s fun r1 r2 =>  -- sub
      .ok { s with
            reg := Function.update s.reg r1 (wrap (s.reg r1 + W64 - wrap (s.reg r2))),
            ip := s.ip + 2 }
    else if opcode = 0xa2 then with_regs bc s fun r1 r2 =>  -- mul
      .ok { s with
            reg := Function.update s.reg r1 (wrap (s.reg r1 * s.reg r2)),
            ip := s.ip + 2 }
    else if opcode = 0xa3 then with_regs bc s fun r1 r2 =>
      -- div: the source computes REG1 /= REG2 with no zero check; an
      -- unsigned division by zero is undefined behaviour in C
      if s.reg r2 = 0 then .ub
      else .ok { s with
            reg := Function.update s.reg r1 (s.reg r1 / s.reg r2),
            ip := s.ip + 2 }
    else if opcode = 0xa4 then with_regs bc s fun r1 r2 =>  -- rem
      if s.reg r2 = 0 then .ub
      else .ok { s with
            reg := Function.update s.reg r1 (s.reg r1 % s.reg r2),
            ip := s.ip + 2 }
    else if opcode = 0xb0 then with_regs bc s fun r1 r2 =>  -- and
      .ok { s with
            reg := Function.update s.reg r1 (Nat.land (s.reg r1) (s.reg r2)),
            ip := s.ip + 2 }
    else if opcode = 0xb1 then with_regs bc s fun r1 r2 =>  -- or
      .ok { s with
            reg := Function.update s.reg r1 (Nat.lor (s.reg r1) (s.reg r2)),
            ip := s.ip + 2 }
    else if opcode = 0xb2 then with_regs bc s fun r1 r2 =>  -- xor
      .ok { s with
            reg := Function.update s.reg r1 (Nat.xor (s.reg r1) (s.reg r2)),
            ip := s.ip + 2 }
    else if opcode = 0xb3 then with_reg1 bc s fun r1 =>  -- not
      .ok { s with
            reg := Function.update s.reg r1 (W64 - 1 - wrap (s.reg r1)),
            ip := s.ip + 2 }
    else .trap "invalid instruction"

/-- One dispatch step, embedded from `run_single` in `soil.c`. The opcode is
fetched at `ip` (no bounds check exists in the source: a fetch past the end of
the bytecode is `ub`) and dispatched through the `switch`. -/
def run_single (args : List (List Nat)) (bc : List Nat) (s : VM) : Outcome :=
  match byteAt bc s.ip with
  | none => .ub
  | some opcode => exec_op args bc s opcode

/-- A zeroed machine with register `b` (slot 3) holding `MEMORY_SIZE - 1`. -/
def vmLoadHigh : VM :=
  { reg := fun i => if i = 3 then MEMORY_SIZE - 1 else 0,
    ip := 0, mem := fun _ => 0, call_stack := [] }

/-- A zeroed machine with `sp` (slot 0) holding 4. -/
def vmLowSp : VM :=
  { reg := fun i => if i = 0 then 4 else 0,
    ip := 0, mem := fun _ => 0, call_stack := [] }

/-- The opcode bytes that have a `case` in the `switch` of `run_single` in
`soil.c`. This is the table of spec §4.6 plus `0xa4` (`rem`), which the
source implements although the spec table omits it. -/
def case_opcodes : List Nat :=
  [0x00, 0xe0, 0xd0, 0xd1, 0xd2, 0xd3, 0xd4, 0xd5, 0xd6, 0xd7, 0xd8,
   0xf0, 0xf1, 0xf2, 0xf3, 0xf4,
   0xc0, 0xc1, 0xc2, 0xc3, 0xc4, 0xc5,
   0xa0, 0xa1, 0xa2, 0xa3, 0xa4,
   0xb0, 0xb1, 0xb2, 0xb3]

/-- A zeroed machine with register `a` (slot 2) holding 7 and register `b`
(slot 3) holding 3. -/
def vmRem : VM :=
  { reg := fun i => if i = 2 then 7 else if i = 3 then 3 else 0,
    ip := 0, mem := fun _ => 0, call_stack := [] }

/-- A zeroed machine with register `b` (slot 3) holding 100 and register `c`
(slot 4) holding 5. -/
def vmArg : VM :=
  { reg := fun i => if i = 3 then 100 else if i = 4 then 5 else 0,
    ip := 0, mem := fun _ => 0, call_stack := [] }

/-! ### The assembler (`assemble.c`).
Strings (`Str` in the source) are `List Char`; output buffers are byte
lists. -/

/-- The C `starts_with`: compare `other` elementwise against the front of
`this` (the source first checks the lengths). -/
def starts_with : List Char → List Char → Bool
  | _, [] => true
  | [], _ :: _ => false
  | c :: cs, d :: ds => c == d && starts_with cs ds

/-- The C `strequal`: equal lengths and equal prefix. -/
def strequal (a b : List Char) : Bool :=
  a.length == b.length && starts_with a b

/-- The `num_dots` loop of `globalize_label`: count the leading dots. -/
def countLeadingDots : List Char → Nat
  | '.' :: rest => countLeadingDots rest + 1
  | _ => 0

/-- The scan loop of `globalize_label` over `last`, with `n` pending dots:
the length of the shared prefix. Every dot of `last` consumes a pending dot
and the scan stops right before the dot that brings the count to zero;
reaching the end of `last` is accepted exactly when one dot is still
pending. The error string is the panic message of the source. -/
def globalize_scan : List Char → Nat → Except String Nat
  | [], n =>
      if n = 1 then Except.ok 0
      else Except.error "Label has too many dots at the beginning."
  | c :: rest, n =>
      if c = '.' then
        if n - 1 = 0 then Except.ok 0
        else (globalize_scan rest (n - 1)).map (· + 1)
      else (globalize_scan rest n).map (· + 1)

/-- `globalize_label` from `assemble.c`: strip the leading dots; without
dots the label is already absolute; otherwise split `last` at the scan
result and glue `prefix ++ "." ++ stripped`. -/
def globalize_label (label : List Char) (last : List Char) : Except String (List Char) :=
  let numDots := countLeadingDots label
  let stripped := label.drop numDots
  if numDots = 0 then Except.ok stripped
  else
    match globalize_scan last numDots with
    | Except.error e => Except.error e
    | Except.ok sp => Except.ok (last.take sp ++ '.' :: stripped)

/-- Spec-side helper: the number of dots in a label. -/
def countDots (l : List Char) : Nat := l.count '.'

/-- Spec-side helper: the index of the `n`-th dot of `l` (1-based). -/
def dotIndex : Nat → List Char → Option Nat
  | _, [] => none
  | n, c :: rest =>
      if c = '.' then
        if n = 1 then some 0 else (dotIndex (n - 1) rest).map (· + 1)
      else (dotIndex n rest).map (· + 1)

/-- Spec-side helper: the split point of `last` keeping its `n` leftmost
dot-separated components — the index of the `n`-th dot, or the whole length
exactly when `n = countDots last + 1`. -/
def splitPoint (n : Nat) (l : List Char) : Option Nat :=
  match dotIndex n l with
  | some i => some i
  | none => if n = countDots l + 1 then some l.length else none

/-- Dotted-label resolution exactly as claim C8 words it: with `n ≥ 1`
leading dots and `n ≤ countDots last + 1`, keep the
`(countDots last + 1) - (n - 1)` leftmost dot-separated components of `last`
(so the end of `last` is the valid split point exactly when `n = 1`), then
append a dot and the stripped tail; with more dots, fail. -/
def globalizeClaim (label : List Char) (last : List Char) : Except String (List Char) :=
  let n := countLeadingDots label
  let stripped := label.drop n
  if n = 0 then Except.ok stripped
  else if n > countDots last + 1 then
    Except.error "Label has too many dots at the beginning."
  else
    match splitPoint (countDots last + 1 - (n - 1)) last with
    | some p => Except.ok (last.take p ++ '.' :: stripped)
    | none => Except.error "unreachable"

/-- The amended dotted-label resolution: with `n ≥ 1` leading dots the kept
prefix is the `n` leftmost dot-separated components of `last` (the prefix up
to its `n`-th dot, or all of `last` exactly when `n = countDots last + 1`),
and resolution fails precisely when `n > countDots last + 1`. -/
def globalizeAmended (label : List Char) (last : List Char) : Except String (List Char) :=
  let n := countLeadingDots label
  let stripped := label.drop n
  if n = 0 then Except.ok stripped
  else
    match splitPoint n last with
    | some p => Except.ok (last.take p ++ '.' :: stripped)
    | none => Except.error "Label has too many dots at the beginning."

/-- The assembler state of `assemble.c`: output buffer, label table, patch
list, last defined label and the start offset of the current section. The
table and the list are global and append-only in the source; the arrays with
their lengths become lists. -/
structure AsmState where
  output : List Nat
  labels : List (List Char × Nat)
  patches : List (List Char × Nat)
  last_label : List Char
  start_of_section : Nat

/-- `emit_byte`: append one byte (`push_to_bytes` stores a `Byte`). -/
def emit_byte (st : AsmState) (b : Nat) : AsmState :=
  { st with output := st.output ++ [b % 256] }

/-- The eight little-endian bytes of a word, as `emit_word` produces them. -/
def word_bytes (w : Nat) : List Nat :=
  [w % 256, w / 256 % 256, w / 256 ^ 2 % 256, w / 256 ^ 3 % 256,
   w / 256 ^ 4 % 256, w / 256 ^ 5 % 256, w / 256 ^ 6 % 256, w / 256 ^ 7 % 256]

/-- `emit_word`: append a word little-endian. -/
def emit_word (st : AsmState) (w : Nat) : AsmState :=
  { st with output := st.output ++ word_bytes w }

/-- `emit_str`: append the bytes of a string. -/
def emit_str (st : AsmState) (s : List Nat) : AsmState :=
  { st with output := st.output ++ s.map (· % 256) }

/-- Store the bytes `bs` over the buffer starting at `pos` (every use in the
driver stays inside the buffer, where `List.set` matches the C store). -/
def set_bytes : List Nat → Nat → List Nat → List Nat
  | out, _, [] => out
  | out, pos, b :: bs => set_bytes (out.set pos b) (pos + 1) bs

/-- `overwrite_word`: patch an already-emitted eight-byte slot. -/
def overwrite_word (st : AsmState) (pos w : Nat) : AsmState :=
  { st with output := set_bytes st.output pos (word_bytes w) }

/-- `find_label`: the first entry with an equal name, scanning from index 0
(the C sentinel `-1` becomes `none`). -/
def find_label : List (List Char × Nat) → List Char → Option Nat
  | [], _ => none
  | (l, p) :: rest, name => if strequal name l then some p else find_label rest name

/-- `emit_label_ref`: globalize, record a patch at the current output
length, and emit a zero placeholder word. -/
def emit_label_ref (st : AsmState) (name : List Char) : Except String AsmState :=
  match globalize_label name st.last_label with
  | Except.error e => Except.error e
  | Except.ok g =>
      Except.ok (emit_word { st with patches := st.patches ++ [(g, st.output.length)] } 0)

/-- `define_label`: globalize, update the last label, and append the
definition with its section-relative position. The source has no duplicate
check. -/
def define_label (st : AsmState) (name : List Char) : Except String AsmState :=
  match globalize_label name st.last_label with
  | Except.error e => Except.error e
  | Except.ok g =>
      Except.ok { st with
                  last_label := g,
                  labels := st.labels ++ [(g, st.output.length - st.start_of_section)] }

/-- The loop of `fix_patches`: resolve the pending patches in order against
the label table, failing at the first unresolved one (the panic of the
source); `overwrite_word` never touches the table or the list. -/
def fix_patches_go : List (List Char × Nat) → AsmState → Except String AsmState
  | [], st => Except.ok st
  | (name, whe) :: rest, st =>
      match find_label st.labels name with
      | none => Except.error "Label not defined."
      | some target => fix_patches_go rest (overwrite_word st whe target)

/-- `fix_patches` from `assemble.c`. -/
def fix_patches (st : AsmState) : Except String AsmState :=
  fix_patches_go st.patches st

/-- Code-section statements (the parsed forms of the corresponding arms of
the code loop of `main`; the lexer of spec §4.1 is orthogonal to the claims
about the label machinery): a label definition, a plain one-byte
instruction `nop`, and a `jump` to a label. -/
inductive CodeStmt where
  | label (name : List Char)
  | nop
  | jumpTo (name : List Char)

/-- Data-section statements of `main`: label definition, `byte`, `str`,
`word` with a number and `word` with a label reference. -/
inductive DataStmt where
  | label (name : List Char)
  | byteD (b : Nat)
  | strD (s : List Nat)
  | wordNum (w : Nat)
  | wordLabel (name : List Char)

/-- One arm of the code-section loop of `main`. -/
def do_code_stmt (st : AsmState) : CodeStmt → Except String AsmState
  | CodeStmt.label n => define_label st n
  | CodeStmt.nop => Except.ok (emit_byte st 0x00)
  | CodeStmt.jumpTo n => emit_label_ref (emit_byte st 0xf0) n

/-- The code-section loop of `main`. -/
def do_code (st : AsmState) : List CodeStmt → Except String AsmState
  | [] => Except.ok st
  | c :: cs =>
      match do_code_stmt st c with
      | Except.error e => Except.error e
      | Except.ok st1 => do_code st1 cs

/-- One arm of the data-section loop of `main`. -/
def do_data_stmt (st : AsmState) : DataStmt → Except String AsmState
  | DataStmt.label n => define_label st n
  | DataStmt.byteD b => Except.ok (emit_byte st b)
  | DataStmt.strD s => Except.ok (emit_str st s)
  | DataStmt.wordNum w => Except.ok (emit_word st w)
  | DataStmt.wordLabel n => emit_label_ref st n

/-- The data-section loop of `main`. -/
def do_data (st : AsmState) : List DataStmt → Except String AsmState
  | [] => Except.ok st
  | c :: cs =>
      match do_data_stmt st c with
      | Except.error e => Except.error e
      | Except.ok st1 => do_data st1 cs

/-- The magic bytes `soil`. -/
def soil_magic : List Nat := [115, 111, 105, 108]

/-- `main` of `assemble.c` up to (but not including) `fix_patches`: emit the
magic, the code section with its back-patched length word, then the data
section. Returns the state before patch resolution together with the number
of code-section labels and the position of the memory-section length slot.
The single global patch list is NOT reset between the sections, and no patch
is resolved at the end of the code section. -/
def assemble_sections (code : List CodeStmt) (data : List DataStmt) :
    Except String (AsmState × Nat × Nat) :=
  let st0 : AsmState :=
    { output := [], labels := [], patches := [], last_label := [], start_of_section := 0 }
  let st1 := emit_str st0 soil_magic
  let st2 := emit_byte st1 0
  let codeLenPtr := st2.output.length
  let st3 := emit_word st2 0
  let st4 := { st3 with start_of_section := st3.output.length }
  match do_code st4 code with
  | Except.error e => Except.error e
  | Except.ok st5 =>
      let st6 := overwrite_word st5 codeLenPtr (st5.output.length - st5.start_of_section)
      let st7 := emit_byte st6 1
      let memLenPtr := st7.output.length
      let st8 := emit_word st7 0
      let st9 := { st8 with start_of_section := st8.output.length }
      match do_data st9 data with
      | Except.error e => Except.error e
      | Except.ok st10 => Except.ok (st10, st5.labels.length, memLenPtr)

/-- The debug-info entries: for each label its position, name length and
name bytes. -/
def emit_debug : AsmState → List (List Char × Nat) → AsmState
  | st, [] => st
  | st, (name, pos) :: rest =>
      emit_debug (emit_str (emit_word (emit_word st pos) name.length)
        (name.map Char.toNat)) rest

/-- `main` of `assemble.c` after `fix_patches`: truncate the label table to
the code-section labels, back-patch the memory-section length, and emit the
debug-info section. -/
def assemble_finish (st : AsmState) (nl memLenPtr : Nat) : List Nat :=
  let st1 := { st with labels := st.labels.take nl }
  let st2 := overwrite_word st1 memLenPtr (st1.output.length - st1.start_of_section)
  let st3 := emit_byte st2 3
  let dbgLenPtr := st3.output.length
  let st4 := emit_word st3 0
  let startDbg := st4.output.length
  let st5 := emit_word st4 st4.labels.length
  let st6 := emit_debug st5 st5.labels
  let st7 := overwrite_word st6 dbgLenPtr (st6.output.length - startDbg)
  st7.output

/-- The whole assembler driver: the two sections, then the single
`fix_patches` run, then the debug section; the output bytes on success. -/
def assemble (code : List CodeStmt) (data : List DataStmt) : Except String (List Nat) :=
  match assemble_sections code data with
  | Except.error e => Except.error e
  | Except.ok (st, nl, memLenPtr) =>
      match fix_patches st with
      | Except.error e => Except.error e
      | Except.ok st1 => Except.ok (assemble_finish st1 nl memLenPtr)

/-- Whether assembly succeeds. -/
def assembles (code : List CodeStmt) (data : List DataStmt) : Bool :=
  (assemble code data).toOption.isSome

/-- Unfolding of `run_single` at a fetched opcode byte. -/
theorem run_single_eq_exec {bc : List Nat} {s : VM} {op : Nat}
    (args : List (List Nat)) (h : byteAt bc s.ip = some op) :
    run_single args bc s = exec_op args bc s op := by
  simp [run_single, h]

/-- C1: the claim that every load, loadb, store, storeb, push and pop whose
effective address `a` satisfies `a > MEMORY_SIZE - width` traps before any
side effect fails on the code. First conjunct: `load a b` with
`b = MEMORY_SIZE - 1` passes the source check `REG2 >= MEMORY_SIZE` and the
eight-byte read runs past the arena (undefined behaviour, not a trap).
Second conjunct: `push a` with `sp = 4` performs `SP -= 8` (wrapping to
`2^64 - 4`) and stores through the resulting pointer with no check at all. -/
theorem C1_load_and_push_out_of_bounds :
    run_single [] [0xd3, 0x32] vmLoadHigh = Outcome.ub ∧
    run_single [] [0xd7, 0x02] vmLowSp = Outcome.ub := by
  constructor <;> rfl

/-- C2: the claim that opcode 0x00 (`nop`) only increments `ip` fails on the
code: the `case 0x00` of `run_single` calls `dump_and_panic("halted")`, so
every dispatch of a 0x00 opcode byte traps at once, before the dead
`ip += 1`. -/
theorem C2_nop_traps :
    ∀ (args : List (List Nat)) (bc : List Nat) (s : VM),
      byteAt bc s.ip = some 0x00 →
      run_single args bc s = Outcome.trap "halted" := by
  intro args bc s h
  rw [run_single_eq_exec args h]
  simp [exec_op]

/-- Witness for `C2_nop_traps`: a single `nop` at `ip = 0` traps "halted". -/
theorem C2_nop_traps_witness :
    run_single [] [0x00] vmLowSp = Outcome.trap "halted" :=
  C2_nop_traps [] [0x00] vmLowSp rfl

/-- C3: the claim that decoding past the end of the bytecode traps fails on
the code: `run_single` fetches `byte_code[ip]` with no bounds check, so a
dispatch with `ip` at or past the end reads outside the buffer (undefined
behaviour), it does not trap. -/
theorem C3_ip_past_end_is_ub :
    ∀ (args : List (List Nat)) (bc : List Nat) (s : VM),
      bc.length ≤ s.ip →
      run_single args bc s = Outcome.ub := by
  intro args bc s h
  simp [run_single, byteAt, List.getElem?_eq_none h]

/-- Witness for `C3_ip_past_end_is_ub`: with an empty code section, the very
first dispatch reads past the buffer. -/
theorem C3_ip_past_end_is_ub_witness :
    run_single [] [] vmLowSp = Outcome.ub :=
  C3_ip_past_end_is_ub [] [] vmLowSp (by decide)

/-- C4: the claim that `call` on a full stack and `ret` on an empty stack
trap fails on the code. First conjunct: `ret` with an empty call stack
decrements the unsigned `call_stack_len` (wrapping to `2^64 - 1`) and reads
`call_stack` far out of range — undefined behaviour, not a trap. Second
conjunct: `call` with 1024 entries stores at `call_stack[1024]`, one past the
array — again undefined behaviour, not a trap. -/
theorem C4_call_stack_unchecked :
    (∀ (args : List (List Nat)) (bc : List Nat) (s : VM),
      byteAt bc s.ip = some 0xf3 →
      s.call_stack = [] →
      run_single args bc s = Outcome.ub) ∧
    (∀ (args : List (List Nat)) (bc : List Nat) (s : VM),
      byteAt bc s.ip = some 0xf2 →
      1024 ≤ s.call_stack.length →
      run_single args bc s = Outcome.ub) := by
  constructor
  · intro args bc s h hs
    rw [run_single_eq_exec args h]
    simp [exec_op, hs]
  · intro args bc s h hs
    rw [run_single_eq_exec args h]
    simp [exec_op, hs]

/-- Witness for `C4_call_stack_unchecked`: `ret` as the first instruction
with the initial empty call stack, and `call` with exactly 1024 entries. -/
theorem C4_call_stack_unchecked_witness :
    run_single [] [0xf3] vmLowSp = Outcome.ub ∧
    run_single [] [0xf2, 0, 0, 0, 0, 0, 0, 0, 0]
      { vmLowSp with call_stack := List.replicate 1024 0 } = Outcome.ub :=
  ⟨C4_call_stack_unchecked.1 [] [0xf3] vmLowSp rfl rfl,
   C4_call_stack_unchecked.2 [] [0xf2, 0, 0, 0, 0, 0, 0, 0, 0]
     { vmLowSp with call_stack := List.replicate 1024 0 } rfl
     (by rw [show ({ vmLowSp with call_stack := List.replicate 1024 0 } : VM).call_stack
               = List.replicate 1024 0 from rfl, List.length_replicate])⟩

/-- C5: the claim that `div` with `r2 = 0` traps fails on the code: the
source computes `REG1 /= REG2` with no zero check, and an unsigned division
by zero is undefined behaviour in C, not a trap of the interpreter. -/
theorem C5_div_by_zero_is_ub :
    ∀ (args : List (List Nat)) (bc : List Nat) (s : VM) (ob : Nat)
      (r1 r2 : Fin 8),
      byteAt bc s.ip = some 0xa3 →
      byteAt bc (s.ip + 1) = some ob →
      regIdx (ob % 16) = some r1 →
      regIdx (ob / 16) = some r2 →
      s.reg r2 = 0 →
      run_single args bc s = Outcome.ub := by
  intro args bc s ob r1 r2 h hob h1 h2 hz
  rw [run_single_eq_exec args h]
  simp [exec_op, with_regs, hob, h1, h2, hz]

/-- Witness for `C5_div_by_zero_is_ub`: `div a b` with `b = 0` (all registers
of `vmLoadHigh` except slot 3 are zero, and the operand byte 0x32 names
slots 2 and 3). -/
theorem C5_div_by_zero_is_ub_witness :
    run_single [] [0xa3, 0x42] vmLoadHigh = Outcome.ub :=
  C5_div_by_zero_is_ub [] [0xa3, 0x42] vmLoadHigh 0x42 2 4 rfl rfl rfl rfl rfl

/-- C6 counterexample: the claim says opcode 0xa4 traps, but the source has
`case 0xa4: REG1 %= REG2` (`rem`). Executing 0xa4 with `a = 7`, `b = 3`
does not trap: it continues with `a = 7 % 3 = 1` and `ip = 2`. -/
theorem C6_rem_does_not_trap :
    (run_single [] [0xa4, 0x32] vmRem).isTrap = false ∧
    (run_single [] [0xa4, 0x32] vmRem).okReg 2 = some 1 ∧
    (run_single [] [0xa4, 0x32] vmRem).okIp = some 2 := by
  refine ⟨rfl, rfl, rfl⟩

set_option maxRecDepth 4000 in
/-- C6 amended: every opcode byte without a `case` in the `switch` of
`run_single` — the spec §4.6 table extended with 0xa4 — falls through to the
`default` and traps "invalid instruction". In particular the reserved bytes
0xa5–0xa8, 0xc6, 0xc7–0xcd, 0xce, 0xcf, 0xe1 and 0xe2 trap, but 0xa4 does
not: it executes as remainder. -/
theorem C6_unknown_opcode_traps :
    ∀ (op : Nat) (args : List (List Nat)) (bc : List Nat) (s : VM),
      byteAt bc s.ip = some op →
      op ∉ case_opcodes →
      run_single args bc s = Outcome.trap "invalid instruction" := by
  intro op args bc s h hmem
  have hne : ∀ k, k ∈ case_opcodes → op ≠ k := fun k hk he => hmem (by rw [he]; exact hk)
  rw [run_single_eq_exec args h]
  unfold exec_op
  rw [if_neg (hne 0x00 (by decide)), if_neg (hne 0xe0 (by decide)),
      if_neg (hne 0xd0 (by decide)), if_neg (hne 0xd1 (by decide)),
      if_neg (hne 0xd2 (by decide)), if_neg (hne 0xd3 (by decide)),
      if_neg (hne 0xd4 (by decide)), if_neg (hne 0xd5 (by decide)),
      if_neg (hne 0xd6 (by decide)), if_neg (hne 0xd7 (by decide)),
      if_neg (hne 0xd8 (by decide)), if_neg (hne 0xf0 (by decide)),
      if_neg (hne 0xf1 (by decide)), if_neg (hne 0xf2 (by decide)),
      if_neg (hne 0xf3 (by decide)), if_neg (hne 0xf4 (by decide)),
      if_neg (hne 0xc0 (by decide)), if_neg (hne 0xc1 (by decide)),
      if_neg (hne 0xc2 (by decide)), if_neg (hne 0xc3 (by decide)),
      if_neg (hne 0xc4 (by decide)), if_neg (hne 0xc5 (by decide)),
      if_neg (hne 0xa0 (by decide)), if_neg (hne 0xa1 (by decide)),
      if_neg (hne 0xa2 (by decide)), if_neg (hne 0xa3 (by decide)),
      if_neg (hne 0xa4 (by decide)), if_neg (hne 0xb0 (by decide)),
      if_neg (hne 0xb1 (by decide)), if_neg (hne 0xb2 (by decide)),
      if_neg (hne 0xb3 (by decide))]

/-- Witness for `C6_unknown_opcode_traps`: the reserved `trystart` byte 0xe1
traps. -/
theorem C6_unknown_opcode_traps_witness :
    run_single [] [0xe1] vmRem = Outcome.trap "invalid instruction" :=
  C6_unknown_opcode_traps 0xe1 [] [0xe1] vmRem rfl (by decide)

/-- An element below the cut of a `take` has the same default-valued lookup. -/
theorem take_getD_of_lt {α : Type} (l : List α) (n j : Nat) (d : α) (h : j < n) :
    (l.take n).getD j d = l.getD j d := by
  simp [List.getD_eq_getElem?_getD, List.getElem?_take_of_lt h]

/-- C10: syscall 9 (`syscall_argc`) places the full host `argc` — the length
of the whole `argv` vector of `main`, whose entry 0 is the interpreter
executable and entry 1 the binary path — into register `a` and continues at
`ip + 2` with nothing else changed; syscall 10 (`syscall_arg`) with
register `a` (the index) strictly below that count copies exactly
`min (strlen (argv[index])) c` bytes of the raw host argument to memory at
`b`, returns that count in `a`, and changes nothing else. -/
theorem C10_argc_and_arg :
    (∀ (args : List (List Nat)) (bc : List Nat) (s : VM),
      byteAt bc s.ip = some 0xf4 →
      byteAt bc (s.ip + 1) = some 9 →
      run_single args bc s =
        Outcome.ok { s with reg := Function.update s.reg 2 args.length, ip := s.ip + 2 }) ∧
    (∀ (args : List (List Nat)) (bc : List Nat) (s : VM) (w : Nat),
      byteAt bc s.ip = some 0xf4 →
      byteAt bc (s.ip + 1) = some 10 →
      s.reg 2 < args.length →
      w = min (args.getD (s.reg 2) []).length (s.reg 4) →
      (w = 0 ∨ s.reg 3 + w ≤ MEMORY_SIZE) →
      (run_single args bc s).okReg 2 = some w ∧
      (run_single args bc s).okIp = some (s.ip + 2) ∧
      (∀ j, j < w →
        (run_single args bc s).okMem (s.reg 3 + j) = some ((args.getD (s.reg 2) []).getD j 0)) ∧
      (∀ x, x < s.reg 3 ∨ s.reg 3 + w ≤ x →
        (run_single args bc s).okMem x = some (s.mem x)) ∧
      (∀ r, r ≠ 2 → (run_single args bc s).okReg r = some (s.reg r)) ∧
      (run_single args bc s).okStack = some s.call_stack) := by
  constructor
  · intro args bc s h hob
    rw [run_single_eq_exec args h]
    simp [exec_op, hob, run_syscall]
  · intro args bc s w h hob hlt hwdef hw
    have hnge : ¬ s.reg 2 ≥ args.length := Nat.not_le.mpr hlt
    have hwle : w ≤ (args.getD (s.reg 2) []).length := by rw [hwdef]; exact Nat.min_le_left _ _
    have hstep : run_single args bc s = Outcome.ok
        { s with
          reg := Function.update s.reg 2 w,
          mem := copy_bytes s.mem (s.reg 3) ((args.getD (s.reg 2) []).take w),
          ip := s.ip + 2 } := by
      have h10 : run_single args bc s = run_syscall args s 10 := by
        rw [run_single_eq_exec args h]
        simp [exec_op, hob]
      rw [hwdef] at hw ⊢
      rw [h10]
      unfold run_syscall
      rw [if_neg (by decide), if_neg (by decide), if_neg (by decide), if_pos rfl,
          if_neg hnge, if_pos hw]
    refine ⟨?_, ?_, ?_, ?_, ?_, ?_⟩
    · rw [hstep]; simp [Outcome.okReg]
    · rw [hstep]; simp [Outcome.okIp]
    · intro j hj
      rw [hstep]
      simp only [Outcome.okMem, copy_bytes, List.length_take]
      rw [if_pos (by constructor <;> omega)]
      have hidx : s.reg 3 + j - s.reg 3 = j := by omega
      rw [hidx, take_getD_of_lt _ _ _ _ hj]
    · intro x hx
      rw [hstep]
      simp only [Outcome.okMem, copy_bytes, List.length_take]
      rw [if_neg (by omega)]
    · intro r hr
      rw [hstep]; simp [Outcome.okReg, Function.update_noteq hr]
    · rw [hstep]; simp [Outcome.okStack]

/-- Witness for `C10_argc_and_arg`: with host argument vector `["hi"]`,
syscall 9 returns 1 in `a`, and syscall 10 with index 0, buffer 100 and
capacity 5 copies the two bytes and returns 2 in `a`. -/
theorem C10_argc_and_arg_witness :
    run_single [[104, 105]] [0xf4, 9] vmArg =
      Outcome.ok { vmArg with reg := Function.update vmArg.reg 2 1, ip := 2 } ∧
    (run_single [[104, 105]] [0xf4, 10] vmArg).okReg 2 = some 2 ∧
    (run_single [[104, 105]] [0xf4, 10] vmArg).okMem 100 = some 104 ∧
    (run_single [[104, 105]] [0xf4, 10] vmArg).okMem 101 = some 105 ∧
    (run_single [[104, 105]] [0xf4, 10] vmArg).okIp = some 2 := by
  refine ⟨?_, ?_, ?_, ?_, ?_⟩
  · exact C10_argc_and_arg.1 [[104, 105]] [0xf4, 9] vmArg rfl rfl
  · exact (C10_argc_and_arg.2 [[104, 105]] [0xf4, 10] vmArg 2 rfl rfl
      (by decide) (by decide) (by decide)).1
  · exact (C10_argc_and_arg.2 [[104, 105]] [0xf4, 10] vmArg 2 rfl rfl
      (by decide) (by decide) (by decide)).2.2.1 0 (by decide)
  · exact (C10_argc_and_arg.2 [[104, 105]] [0xf4, 10] vmArg 2 rfl rfl
      (by decide) (by decide) (by decide)).2.2.1 1 (by decide)
  · exact (C10_argc_and_arg.2 [[104, 105]] [0xf4, 10] vmArg 2 rfl rfl
      (by decide) (by decide) (by decide)).2.1

/-- `splitPoint` on the empty label: only one pending dot splits (at the
end). -/
theorem splitPoint_nil (n : Nat) :
    splitPoint n [] = if n = 1 then some 0 else none := by
  simp [splitPoint, dotIndex, countDots]

/-- `splitPoint` at a leading dot with at least two pending dots: consume
the dot and shift. -/
theorem splitPoint_dot (n : Nat) (rest : List Char) (h : 2 ≤ n) :
    splitPoint n ('.' :: rest) = (splitPoint (n - 1) rest).map (· + 1) := by
  have hne : n ≠ 1 := by omega
  simp only [splitPoint, dotIndex, if_pos rfl, if_neg hne]
  cases hdi : dotIndex (n - 1) rest with
  | some i => simp
  | none =>
      have hcd : countDots ('.' :: rest) = countDots rest + 1 := by
        simp [countDots, List.count_cons]
      simp only [Option.map_none', hcd, List.length_cons]
      by_cases hn : n = countDots rest + 1 + 1
      · have hn1 : n - 1 = countDots rest + 1 := by omega
        simp [hn, hn1]
      · have hn1 : n - 1 ≠ countDots rest + 1 := by omega
        simp [hn, hn1]

/-- `splitPoint` at a non-dot character: skip and shift. -/
theorem splitPoint_cons (c : Char) (n : Nat) (rest : List Char) (hc : c ≠ '.') :
    splitPoint n (c :: rest) = (splitPoint n rest).map (· + 1) := by
  simp only [splitPoint, dotIndex, if_neg hc]
  cases hdi : dotIndex n rest with
  | some i => simp
  | none =>
      have hcd : countDots (c :: rest) = countDots rest := by
        simp [countDots, List.count_cons, hc]
      simp only [Option.map_none', hcd, List.length_cons]
      by_cases hn : n = countDots rest + 1
      · simp [hn]
      · simp [hn]

/-- The scan of `globalize_label` computes exactly the amended split point:
the `n`-th dot of `last`, the end of `last` when `n = countDots last + 1`,
and the too-many-dots error otherwise. -/
theorem globalize_scan_eq_splitPoint (l : List Char) :
    ∀ n, 1 ≤ n →
      globalize_scan l n =
        (match splitPoint n l with
         | some p => Except.ok p
         | none => Except.error "Label has too many dots at the beginning.") := by
  induction l with
  | nil =>
      intro n hn
      rw [splitPoint_nil]
      by_cases h1 : n = 1
      · simp [globalize_scan, h1]
      · simp [globalize_scan, h1]
  | cons c rest ih =>
      intro n hn
      by_cases hc : c = '.'
      · subst hc
        by_cases h1 : n = 1
        · subst h1
          simp [globalize_scan, splitPoint, dotIndex]
        · have h2 : 2 ≤ n := by omega
          have h10 : ¬ n - 1 = 0 := by omega
          rw [splitPoint_dot n rest h2]
          simp only [globalize_scan, if_pos rfl, if_neg h10]
          rw [ih (n - 1) (by omega)]
          cases splitPoint (n - 1) rest with
          | some p => rfl
          | none => rfl
      · rw [splitPoint_cons c n rest hc]
        simp only [globalize_scan, if_neg hc]
        rw [ih n hn]
        cases splitPoint n rest with
        | some p => rfl
        | none => rfl

/-- C8 counterexample: for the reference `.x` (one leading dot) and last
label `a.b`, the source `globalize_label` keeps the one leftmost component
and yields `a.x`, while the claim formula keeps
`(countDots "a.b" + 1) - (1 - 1) = 2` components and yields `a.b.x`; the two
functions disagree at this input, so the claim is false of the code. -/
theorem C8_globalize_counterexample :
    globalize_label ['.', 'x'] ['a', '.', 'b'] = Except.ok ['a', '.', 'x'] ∧
    globalizeClaim ['.', 'x'] ['a', '.', 'b'] = Except.ok ['a', '.', 'b', '.', 'x'] ∧
    (['a', '.', 'x'] : List Char) ≠ ['a', '.', 'b', '.', 'x'] := by
  refine ⟨rfl, rfl, by decide⟩

/-- C8 amended: `globalize_label` of the source equals the amended
resolution — with `n ≥ 1` leading dots the kept prefix is the `n` leftmost
dot-separated components of the last label (its prefix up to the `n`-th dot,
all of it exactly when `n = countDots last + 1`), a dot and the stripped
tail are appended, and the too-many-dots error is raised precisely when
`n > countDots last + 1`; a reference without dots is returned unchanged. -/
theorem C8_globalize_amended :
    ∀ (label last : List Char),
      globalize_label label last = globalizeAmended label last := by
  intro label last
  unfold globalize_label globalizeAmended
  by_cases h0 : countLeadingDots label = 0
  · simp [h0]
  · have h1 : 1 ≤ countLeadingDots label := by omega
    simp only [h0, if_neg, if_false]
    rw [globalize_scan_eq_splitPoint last _ h1]
    cases splitPoint (countLeadingDots label) last with
    | some p => simp
    | none => simp

/-- The patch loop succeeds exactly when every recorded patch label is
present in the label table; the overwrites only touch the output buffer. -/
theorem fix_patches_go_isSome :
    ∀ (ps : List (List Char × Nat)) (st : AsmState),
      (fix_patches_go ps st).toOption.isSome =
        ps.all fun p => (find_label st.labels p.1).isSome := by
  intro ps
  induction ps with
  | nil => intro st; simp [fix_patches_go, Except.toOption]
  | cons p rest ih =>
      intro st
      obtain ⟨name, whe⟩ := p
      simp only [fix_patches_go, List.all_cons]
      cases hfl : find_label st.labels name with
      | none => simp [hfl, Except.toOption]
      | some t =>
          have hlab : (overwrite_word st whe t).labels = st.labels := rfl
          rw [ih (overwrite_word st whe t), hlab]
          simp [hfl]

/-- C7 counterexample: a code-section `jump` to a label that is only defined
in the data section assembles successfully, and the jump word at offset 14
is patched with the data-section-relative position 1 of that label. Under
the claim the patch list would be resolved and emptied at the end of the
code section, where `t` is undefined — a fatal error. -/
theorem C7_cross_section_counterexample :
    assembles [CodeStmt.jumpTo ['t']] [DataStmt.byteD 42, DataStmt.label ['t']] = true ∧
    (assemble [CodeStmt.jumpTo ['t']] [DataStmt.byteD 42, DataStmt.label ['t']]).toOption.bind
      (fun out => wordAt out 14) = some 1 := by
  refine ⟨rfl, rfl⟩

/-- C7 amended: the assembler keeps one global patch list across both
sections and resolves it exactly once, after the data section, against the
combined label table; assembly succeeds precisely when every patch recorded
in either section finds its label in that combined table (so a code-section
reference may resolve against a data-section label), and a label undefined
at that single final resolution is fatal. -/
theorem C7_single_patch_pass :
    ∀ (code : List CodeStmt) (data : List DataStmt) (st : AsmState) (nl mp : Nat),
      assemble_sections code data = Except.ok (st, nl, mp) →
      assembles code data = st.patches.all fun p => (find_label st.labels p.1).isSome := by
  intro code data st nl mp h
  have key : (fix_patches st).toOption.isSome
      = st.patches.all fun p => (find_label st.labels p.1).isSome :=
    fix_patches_go_isSome st.patches st
  unfold assembles assemble
  simp only [h]
  cases hfp : fix_patches st with
  | error e =>
      rw [hfp] at key
      simpa [hfp, Except.toOption] using key
  | ok st1 =>
      rw [hfp] at key
      simpa [hfp, Except.toOption] using key

/-- Witness for `C7_single_patch_pass`, at the cross-section example: the
sections leave the single patch `("t", 14)` and the combined table
`[("t", 1)]`, and success coincides with resolvability there. -/
theorem C7_single_patch_pass_witness :
    assembles [CodeStmt.jumpTo ['t']] [DataStmt.byteD 42, DataStmt.label ['t']] =
      (([(['t'], 14)] : List (List Char × Nat)).all
        fun p => (find_label [(['t'], 1)] p.1).isSome) :=
  C7_single_patch_pass [CodeStmt.jumpTo ['t']] [DataStmt.byteD 42, DataStmt.label ['t']]
    _ _ _ rfl

/-- C9 counterexample: a source that defines the label `x` twice in the code
section assembles successfully — there is no duplicate check — and the
`jump x` word at offset 16 is patched with the position 1 of the FIRST
definition (the second sits at position 2). Under the claim this program is
a fatal duplicate-definition error. -/
theorem C9_duplicate_counterexample :
    assembles [CodeStmt.nop, CodeStmt.label ['x'], CodeStmt.nop, CodeStmt.label ['x'],
               CodeStmt.jumpTo ['x']] [] = true ∧
    (assemble [CodeStmt.nop, CodeStmt.label ['x'], CodeStmt.nop, CodeStmt.label ['x'],
               CodeStmt.jumpTo ['x']] []).toOption.bind
      (fun out => wordAt out 16) = some 1 := by
  refine ⟨rfl, rfl⟩

/-- C9 amended: duplicate label definitions are not detected. `define_label`
appends unconditionally (for a dot-free name it always succeeds, whatever
the table already holds), and `find_label` returns the earliest matching
entry, so appending a duplicate at the end never changes what references
resolve to. -/
theorem C9_duplicates_allowed :
    (∀ (st : AsmState) (name : List Char), countLeadingDots name = 0 →
      define_label st name = Except.ok { st with
        last_label := name,
        labels := st.labels ++ [(name, st.output.length - st.start_of_section)] }) ∧
    (∀ (tbl : List (List Char × Nat)) (name : List Char) (p q : Nat),
      find_label tbl name = some p →
      find_label (tbl ++ [(name, q)]) name = some p) := by
  constructor
  · intro st name h
    unfold define_label globalize_label
    simp [h]
  · intro tbl name p q h
    induction tbl with
    | nil => simp [find_label] at h
    | cons e rest ih =>
        obtain ⟨l, pos⟩ := e
        rw [List.cons_append]
        unfold find_label at h ⊢
        by_cases hs : strequal name l = true
        · simpa [hs] using h
        · rw [if_neg (by simpa using hs)] at h ⊢
          exact ih h

/-- Witness for `C9_duplicates_allowed`: defining `x` again when the table
already holds `x` succeeds and appends, and a later duplicate of `x` at
position 5 leaves `find_label` at the first position 0. -/
theorem C9_duplicates_allowed_witness :
    define_label { output := [], labels := [(['x'], 0)], patches := [], last_label := [],
                   start_of_section := 0 } ['x'] =
      Except.ok { output := [], labels := [(['x'], 0), (['x'], 0)], patches := [],
                  last_label := ['x'], start_of_section := 0 } ∧
    find_label [(['x'], 0), (['x'], 5)] ['x'] = some 0 :=
  ⟨C9_duplicates_allowed.1
      { output := [], labels := [(['x'], 0)], patches := [], last_label := [],
        start_of_section := 0 } ['x'] rfl,
   C9_duplicates_allowed.2 [(['x'], 0)] ['x'] 0 5 rfl⟩
